import Mathlib

/-!
Shallow embedding of the GitOps manifest validation engine
(`pkg/pipelines/config/validate.go`) and the pieces of its environment it
depends on.  Pure Go functions become Lean functions; the stateful visitor
becomes explicit state passing over a `VisitorState` record; the Go maps
(used only for membership and for a URL → paths multimap) become lists with
set/association-list semantics.

The visitor callbacks in the source always return `nil`, so the walker's
fatal-error branch in `Manifest.Validate` is dead code and the walk is a
pure fold.

Go `range` over the `serviceURLs` map iterates in an unspecified order;
`ValidateWith` therefore takes the iteration order of the deferred
source-URL check as an explicit parameter, constrained in theorems to be a
permutation of the accumulated association list.  `Validate` instantiates
it with the canonical (first-insertion) order.
-/

namespace Odo

/-- Modelled from the spec: the `Repository` (config repo) descriptor with
required `URL` and `Path` fields; its struct declaration is not under
`src/`, only its validator `validateConfigRepo` is. -/
structure Repository where
  URL : String
  Path : String
deriving Repr, DecidableEq

/-- Modelled from the spec: the webhook secret reference with `Name` and
`Namespace`, each independently name-validated. -/
structure WebhookSecret where
  Name : String
  Namespace : String
deriving Repr, DecidableEq

/-- Modelled from the spec: the optional `Webhook` block; if present it must
carry a `Secret` reference. -/
structure Webhook where
  Secret : Option WebhookSecret
deriving Repr, DecidableEq

/-- Modelled from the spec: the `Integration` sub-block of a pipelines
block, carrying a list of binding names. -/
structure Integration where
  Bindings : List String
deriving Repr, DecidableEq

/-- Modelled from the spec: the optional `Pipelines` block attached to an
environment or service; must carry an `Integration` sub-block. -/
structure Pipelines where
  Integration : Option Integration
deriving Repr, DecidableEq

/-- Modelled from the spec: a `Service` with a `Name`, optional `SourceURL`
(empty string = absent), optional `Webhook` and optional `Pipelines`. -/
structure Service where
  Name : String
  SourceURL : String
  Webhook : Option Webhook
  Pipelines : Option Pipelines
deriving Repr, DecidableEq

/-- Modelled from the spec: an `Application` with a `Name`, a list of
service references (strings naming services declared elsewhere), and an
optional `ConfigRepo`. -/
structure Application where
  Name : String
  ServiceRefs : List String
  ConfigRepo : Option Repository
deriving Repr, DecidableEq

/-- Modelled from the spec: an `Environment` with a `Name`, an optional
`Pipelines` block, and ordered sequences of applications and service
declarations, both reachable from the environment during the walk. -/
structure Environment where
  Name : String
  Pipelines : Option Pipelines
  Apps : List Application
  Services : List Service
deriving Repr, DecidableEq

/-- Modelled from the spec: the ArgoCD sub-config, contributing its
`Namespace` to the config-name namespace. -/
structure ArgoCDConfig where
  Namespace : String
deriving Repr, DecidableEq

/-- Modelled from the spec: the pipeline sub-config, contributing its
`Name` to the config-name namespace. -/
structure PipelinesConfig where
  Name : String
deriving Repr, DecidableEq

/-- Modelled from the spec: the optional global `Config` block with its two
optional sub-configs. -/
structure Config where
  ArgoCDConfig : Option ArgoCDConfig
  PipelineConfig : Option PipelinesConfig
deriving Repr, DecidableEq

/-- Modelled from the spec: the root `Manifest` document: an optional
global `Config` block and an ordered sequence of environments. -/
structure Manifest where
  Config : Option Config
  Environments : List Environment
deriving Repr, DecidableEq

/-- Modelled from the spec: `PathForEnvironment` — path builder for an
environment, a slash-joined segment path (`environments/<name>`), later
normalized to dots by `yamlPath`.  Not under `src/`. -/
def PathForEnvironment (env : Environment) : String :=
  "environments/" ++ env.Name

/-- Modelled from the spec: `PathForApplication` — path builder for an
application inside an environment (`environments/<env>/apps/<app>`). -/
def PathForApplication (env : Environment) (app : Application) : String :=
  PathForEnvironment env ++ "/apps/" ++ app.Name

/-- Modelled from the spec: `PathForService` — path builder for a service
declaration inside an environment
(`environments/<env>/services/<service>`). -/
def PathForService (env : Environment) (serviceName : String) : String :=
  PathForEnvironment env ++ "/services/" ++ serviceName

/-- `yamlPath` from the source: `strings.ReplaceAll(path, "/", ".")`,
i.e. a character map since both pattern and replacement are single
characters. -/
def yamlPath (path : String) : String :=
  ⟨path.data.map (fun c => if c = '/' then '.' else c)⟩

/-- `yamlJoin(a, b...)` from the source: appends `"." ++ s` for each
element of `b` to `a`. -/
def yamlJoin (a : String) (b : List String) : String :=
  b.foldl (fun acc s => acc ++ "." ++ s) a

/-! ## The DNS-1035 name rule

Embedding of `k8s.io/apimachinery`'s
`validation.NameIsDNS1035Label(name, true)` call chain:
`maskTrailingDash` (because the `prefix` argument at the call site in
`validateName` is `true`) followed by `IsDNS1035Label`, which checks the
63-byte length bound and the regex `[a-z]([-a-z0-9]*[a-z0-9])?`.
All manifest content of interest is ASCII, where Go's byte-indexed
`name[:len(name)-2]` coincides with dropping the last two characters. -/

def isLowerAlpha (c : Char) : Bool :=
  'a' ≤ c && c ≤ 'z'

def isLowerAlnum (c : Char) : Bool :=
  isLowerAlpha c || ('0' ≤ c && c ≤ '9')

def isLabelChar (c : Char) : Bool :=
  isLowerAlnum c || c = '-'

/-- Whether the last character of the list satisfies `isLowerAlnum`
(false on the empty list). -/
def lastIsLowerAlnum : List Char → Bool
  | [] => false
  | [c] => isLowerAlnum c
  | _ :: c :: rest => lastIsLowerAlnum (c :: rest)

/-- The regular expression `[a-z]([-a-z0-9]*[a-z0-9])?` as a whole-string
match: nonempty, first character a lowercase letter, every character a
lowercase alphanumeric or hyphen, last character a lowercase
alphanumeric. -/
def matchesDNS1035 (s : List Char) : Bool :=
  match s with
  | [] => false
  | c :: rest => isLowerAlpha c && (c :: rest).all isLabelChar && lastIsLowerAlnum (c :: rest)

def dns1035MaxLenErrMsg : String :=
  "must be no more than 63 characters"

def dns1035RegexErrMsg : String :=
  "a DNS-1035 label must consist of lower case alphanumeric characters or '-', start with an alphabetic character, and end with an alphanumeric character"

/-- `validation.IsDNS1035Label`: length bound first, then the regex, each
contributing one error string. -/
def IsDNS1035Label (value : String) : List String :=
  (if value.utf8ByteSize > 63 then [dns1035MaxLenErrMsg] else []) ++
    (if matchesDNS1035 value.data then [] else [dns1035RegexErrMsg])

/-- `maskTrailingDash`: if the name has length greater than one and ends in
a dash, replace its final two bytes with `"a"`. -/
def maskTrailingDash (name : String) : String :=
  if name.data.length > 1 ∧ name.data.getLast? = some '-' then
    ⟨name.data.dropLast.dropLast ++ ['a']⟩
  else name

/-- `validation.NameIsDNS1035Label(name, prefix)`: masks the trailing dash
when `prefix` holds, then applies the label rule. -/
def NameIsDNS1035Label (name : String) (isPref : Bool) : List String :=
  IsDNS1035Label (if isPref then maskTrailingDash name else name)

/-- The name rule exactly as the spec states it: the DNS-label grammar
`[a-z]([-a-z0-9]*[a-z0-9])?` with length at most 63.  Stated separately
from the source-derived `NameIsDNS1035Label` so the two can be compared:
the source calls the label rule in prefix mode, which masks a trailing
dash first. -/
def dns1035SpecMatch (name : String) : Bool :=
  matchesDNS1035 name.data && decide (name.utf8ByteSize ≤ 63)

/-! ## The error model

Each error-constructing function of the source becomes one constructor, so
that distinct kinds of violation are distinguishable values:
* `invalidName`       — `invalidNameError(name, details, paths)`
* `missingFields`     — `missingFieldsError(fields, paths)`
* `duplicateFields`   — `duplicateFieldsError(fields, paths)`
* `missingServiceRef` — `missingServiceRefError(svc, app, paths)`
* `duplicateSource`   — `duplicateSourceError(url, paths)`
* `envConfigNameClash`— the `fmt.Errorf` in `validateVisitor.Environment`
* `multipleOneOf`     — `apis.ErrMultipleOneOf(paths...)` -/
inductive VError where
  | invalidName (name details : String) (paths : List String)
  | missingFields (fields : List String) (paths : List String)
  | duplicateFields (fields : List String) (paths : List String)
  | missingServiceRef (svc app : String) (paths : List String)
  | duplicateSource (url : String) (paths : List String)
  | envConfigNameClash (name : String)
  | multipleOneOf (paths : List String)
deriving Repr, DecidableEq

/-- `validateName` from the source: `NameIsDNS1035Label(name, true)`; on a
nonempty error list, an invalid-name error carrying the rejected value, the
first underlying reason, and the triggering path. -/
def validateName (name path : String) : Option VError :=
  match NameIsDNS1035Label name true with
  | [] => none
  | e :: _ => some (.invalidName name e [path])

/-! ## Visitor state and helpers -/

/-- The mutable state of `validateVisitor`.  The four `map[string]bool`
registries are membership sets (modelled as lists of keys); `serviceURLs`
is an association list from URL to the list of declaring paths, in
first-insertion key order. -/
structure VisitorState where
  errs : List VError
  envNames : List String
  appNames : List String
  serviceNames : List String
  serviceURLs : List (String × List String)
  configNames : List String
deriving Repr, DecidableEq

def initState : VisitorState :=
  { errs := [], envNames := [], appNames := [], serviceNames := [],
    serviceURLs := [], configNames := [] }

/-- Go map insertion `m[k] = true` as a set insert. -/
def setInsert (x : String) (s : List String) : List String :=
  if x ∈ s then s else x :: s

/-- `checkDuplicate(field, path, checkMap)`: if the path is already a key,
return a duplicate-fields error and leave the registry unchanged;
otherwise register the path. -/
def checkDuplicate (field path : String) (checkMap : List String) :
    Option VError × List String :=
  if path ∈ checkMap then (some (.duplicateFields [field] [path]), checkMap)
  else (none, path :: checkMap)

/-- The `previous, ok := m[url]; previous = append(previous, path);
m[url] = previous` sequence in `validateVisitor.Service`, on the
association-list model of `serviceURLs`. -/
def assocAppend (a : List (String × List String)) (url p : String) :
    List (String × List String) :=
  match a with
  | [] => [(url, [p])]
  | (k, v) :: rest =>
      if k = url then (k, v ++ [p]) :: rest
      else (k, v) :: assocAppend rest url p

/-- Association-list lookup (Go map read). -/
def assocLookup (k : String) : List (String × List String) → Option (List String)
  | [] => none
  | (k', v) :: rest => if k' = k then some v else assocLookup k rest

/-! ## Per-node validators (pure helpers from the source) -/

/-- `validateConfigRepo(repo, path)`. -/
def validateConfigRepo (repo : Repository) (path : String) : List VError :=
  let missing :=
    (if repo.URL = "" then ["url"] else []) ++
      (if repo.Path = "" then ["path"] else [])
  if missing = [] then [] else [.missingFields missing [path]]

/-- `validateWebhook(hook, path)`. -/
def validateWebhook (hook : Option Webhook) (path : String) : List VError :=
  match hook with
  | none => []
  | some h =>
    match h.Secret with
    | none => [.missingFields ["secret"] [yamlJoin path ["webhook"]]]
    | some s =>
        (validateName s.Name (yamlJoin path ["webhook", "secret", "name"])).toList ++
          (validateName s.Namespace (yamlJoin path ["webhook", "secret", "namespace"])).toList

/-- `validatePipelines(pipelines, path)`. -/
def validatePipelines (pipelines : Option Pipelines) (path : String) : List VError :=
  match pipelines with
  | none => []
  | some p =>
    match p.Integration with
    | none => [.missingFields ["integration"] [yamlJoin path ["pipelines"]]]
    | some integ =>
        integ.Bindings.filterMap
          (fun name => validateName name (yamlJoin path ["pipelines", "integration", "binding"]))

/-! ## Visitor callbacks

Each callback is split into the list of errors it appends (computed from
the pre-state registries, in the source's append order) and the state
update. -/

/-- The errors appended by `validateVisitor.Environment`, in source
order: config-name clash, duplicate check, name check, pipelines check. -/
def environmentErrs (configNames envNames : List String) (env : Environment) : List VError :=
  let envPath := yamlPath (PathForEnvironment env)
  (if env.Name ∈ configNames then [.envConfigNameClash env.Name] else []) ++
    (checkDuplicate env.Name envPath envNames).1.toList ++
    (validateName env.Name envPath).toList ++
    validatePipelines env.Pipelines envPath

/-- `validateVisitor.Environment`. -/
def visitEnvironment (vv : VisitorState) (env : Environment) : VisitorState :=
  { vv with
    errs := vv.errs ++ environmentErrs vv.configNames vv.envNames env
    envNames := (checkDuplicate env.Name (yamlPath (PathForEnvironment env)) vv.envNames).2 }

/-- The errors appended by `validateVisitor.Application`, in source order:
duplicate check, name check, the two oneOf checks, config-repo check, and
the service-reference loop (one error per reference missing from the
service-name registry). -/
def applicationErrs (appNames serviceNames : List String) (env : Environment)
    (app : Application) : List VError :=
  let appPath := yamlPath (PathForApplication env app)
  (checkDuplicate app.Name appPath appNames).1.toList ++
    (validateName app.Name appPath).toList ++
    (if app.ServiceRefs.length = 0 ∧ app.ConfigRepo = none then
      [.missingFields ["services", "config_repo"] [appPath]]
    else []) ++
    (if app.ServiceRefs.length > 0 ∧ app.ConfigRepo ≠ none then
      [.multipleOneOf [yamlJoin appPath ["services"], yamlJoin appPath ["config_repo"]]]
    else []) ++
    (match app.ConfigRepo with
      | some repo => validateConfigRepo repo (yamlJoin appPath ["config_repo"])
      | none => []) ++
    app.ServiceRefs.filterMap (fun r =>
      if r ∈ serviceNames then none
      else some (.missingServiceRef r app.Name [appPath]))

/-- `validateVisitor.Application`. -/
def visitApplication (vv : VisitorState) (env : Environment) (app : Application) :
    VisitorState :=
  { vv with
    errs := vv.errs ++ applicationErrs vv.appNames vv.serviceNames env app
    appNames := (checkDuplicate app.Name (yamlPath (PathForApplication env app)) vv.appNames).2 }

/-- The errors appended by `validateVisitor.Service`, in source order:
duplicate check, name check, webhook check, pipelines check. -/
def serviceErrs (serviceNames : List String) (env : Environment) (svc : Service) :
    List VError :=
  let svcPath := yamlPath (PathForService env svc.Name)
  (checkDuplicate svc.Name svcPath serviceNames).1.toList ++
    (validateName svc.Name svcPath).toList ++
    validateWebhook svc.Webhook svcPath ++
    validatePipelines svc.Pipelines svcPath

/-- `validateVisitor.Service`: records the source URL (when non-empty) into
the URL multimap, runs the checks, and finally registers the service's bare
name unconditionally (`vv.serviceNames[svc.Name] = true`). -/
def visitService (vv : VisitorState) (env : Environment) (svc : Service) : VisitorState :=
  let svcPath := yamlPath (PathForService env svc.Name)
  { vv with
    errs := vv.errs ++ serviceErrs vv.serviceNames env svc
    serviceURLs :=
      if svc.SourceURL = "" then vv.serviceURLs
      else assocAppend vv.serviceURLs svc.SourceURL svcPath
    serviceNames := setInsert svc.Name (checkDuplicate svc.Name svcPath vv.serviceNames).2 }

/-- `validateVisitor.validateConfig`: for each sub-config present,
name-validate its name (at path `config.<name>`) and register it into the
config-name registry unconditionally. -/
def validateConfig (vv : VisitorState) (m : Manifest) : VisitorState :=
  match m.Config with
  | none => vv
  | some cfg =>
    let vv1 :=
      match cfg.ArgoCDConfig with
      | none => vv
      | some a =>
        { vv with
          errs := vv.errs ++ (validateName a.Namespace ("config." ++ a.Namespace)).toList
          configNames := setInsert a.Namespace vv.configNames }
    match cfg.PipelineConfig with
    | none => vv1
    | some p =>
      { vv1 with
        errs := vv1.errs ++ (validateName p.Name ("config." ++ p.Name)).toList
        configNames := setInsert p.Name vv1.configNames }

/-! ## The walk and the orchestrator -/

/-- One environment's full visit: the environment callback, then its
applications in document order, then its service declarations in document
order. -/
def visitEnvFull (vv : VisitorState) (env : Environment) : VisitorState :=
  env.Services.foldl (fun s svc => visitService s env svc)
    (env.Apps.foldl (fun s app => visitApplication s env app)
      (visitEnvironment vv env))

/-- Modelled from the spec: `Manifest.Walk` — depth-first traversal,
environments in document order, applications then services within each
environment; the callbacks always return `nil`, so the walk is a pure
fold.  Not under `src/`. -/
def walk (vv : VisitorState) (envs : List Environment) : VisitorState :=
  envs.foldl visitEnvFull vv

/-- The visitor state after the config check and the walk, starting from a
fresh visitor as `Manifest.Validate` does. -/
def finalState (m : Manifest) : VisitorState :=
  walk (validateConfig initState m) m.Environments

/-- `validateVisitor.validateServiceURLs`, parametrized by the map
iteration order: one duplicate-source error per URL with more than one
declaring path. -/
def validateServiceURLsWith (order : List (String × List String)) : List VError :=
  order.filterMap (fun e =>
    if e.2.length > 1 then some (.duplicateSource e.1 e.2) else none)

/-- All individual errors accumulated by `Manifest.Validate`: config-check
and walk errors first, then the deferred source-URL errors in the given
map iteration order. -/
def validateErrs (m : Manifest) (order : List (String × List String)) : List VError :=
  (finalState m).errs ++ validateServiceURLsWith order

/-- `Manifest.Validate` with the `serviceURLs` iteration order made
explicit: success (`none`) when no error was accumulated, otherwise the
joined error list. -/
def ValidateWith (m : Manifest) (order : List (String × List String)) :
    Option (List VError) :=
  if validateErrs m order = [] then none else some (validateErrs m order)

/-- `Manifest.Validate` at the canonical (first-insertion) iteration
order. -/
def Validate (m : Manifest) : Option (List VError) :=
  ValidateWith m (finalState m).serviceURLs

end Odo

namespace Odo

/-- All keys a list of environments contributes to the service-name
registry: each service's bare name and its computed yaml path. -/
def svcKeys (envs : List Environment) : List String :=
  envs.flatMap (fun env => env.Services.flatMap
    (fun s => [s.Name, yamlPath (PathForService env s.Name)]))

/-- Recognizer for the `multipleOneOf` error class
(`apis.ErrMultipleOneOf`). -/
def isMultipleOneOf : VError → Bool
  | .multipleOneOf _ => true
  | _ => false

/-- Recognizer for a `duplicateSource` error about the given URL. -/
def isDupSourceFor (u : String) : VError → Bool
  | .duplicateSource u' _ => u' == u
  | _ => false

/-- The (URL, path) pairs one environment's services record into the
`serviceURLs` multimap, in declaration order: one pair per service with a
non-empty `SourceURL`. -/
def envURLPairs (env : Environment) : List (String × String) :=
  env.Services.flatMap (fun s =>
    if s.SourceURL = "" then []
    else [(s.SourceURL, yamlPath (PathForService env s.Name))])

/-- The (URL, path) pairs recorded into the `serviceURLs` multimap during
the walk, in traversal order. -/
def urlPairs (envs : List Environment) : List (String × String) :=
  envs.flatMap envURLPairs

/-- The paths of all services declaring the given source URL, in traversal
order. -/
def declPaths (envs : List Environment) (u : String) : List String :=
  ((urlPairs envs).filter (fun p => p.1 == u)).map (fun p => p.2)

/-- Folding a pair list into an association list with `assocAppend`. -/
def urlAcc (a : List (String × List String)) (ps : List (String × String)) :
    List (String × List String) :=
  ps.foldl (fun a p => assocAppend a p.1 p.2) a

/-- The keys of an association list. -/
def assocKeys (a : List (String × List String)) : List String :=
  a.map (fun e => e.1)

/-! ## Concrete example data used by witnesses and counterexamples -/

/-- Convenience constructor: a service with only a name and source URL. -/
def mkService (n u : String) : Service :=
  { Name := n, SourceURL := u, Webhook := none, Pipelines := none }

/-- An environment with no apps, services or pipelines. -/
def mkEnv (n : String) : Environment :=
  { Name := n, Pipelines := none, Apps := [], Services := [] }

/-- Two environments sharing the name `dev`. -/
def mC1 : Manifest := { Config := none, Environments := [mkEnv "dev", mkEnv "dev"] }

/-- Four services, two sharing source URL `u`, two sharing `v`. -/
def mC2 : Manifest :=
  { Config := none
    Environments := [{ Name := "e"
                       Pipelines := none
                       Apps := []
                       Services := [mkService "a" "u", mkService "b" "u",
                                    mkService "c" "v", mkService "d" "v"] }] }

/-- Two services sharing source URL `u`. -/
def mC3 : Manifest :=
  { Config := none
    Environments := [{ Name := "e"
                       Pipelines := none
                       Apps := []
                       Services := [mkService "a" "u", mkService "b" "u"] }] }

/-- An application referencing service `svc1`, which is declared in the
same environment and therefore visited after the application. -/
def mC5 : Manifest :=
  { Config := none
    Environments := [{ Name := "dev"
                       Pipelines := none
                       Apps := [{ Name := "app1", ServiceRefs := ["svc1"], ConfigRepo := none }]
                       Services := [mkService "svc1" ""] }] }

/-- A config block naming ArgoCD namespace `dev` and an environment also
named `dev`. -/
def mC10 : Manifest :=
  { Config := some { ArgoCDConfig := some { Namespace := "dev" }, PipelineConfig := none }
    Environments := [mkEnv "dev"] }

/-! ## Basic accessor lemmas for the visitor steps -/

theorem errs_visitEnvironment (vv : VisitorState) (env : Environment) :
    (visitEnvironment vv env).errs = vv.errs ++ environmentErrs vv.configNames vv.envNames env := rfl

theorem errs_visitApplication (vv : VisitorState) (env : Environment) (app : Application) :
    (visitApplication vv env app).errs = vv.errs ++ applicationErrs vv.appNames vv.serviceNames env app := rfl

theorem errs_visitService (vv : VisitorState) (env : Environment) (svc : Service) :
    (visitService vv env svc).errs = vv.errs ++ serviceErrs vv.serviceNames env svc := rfl

theorem configNames_visitEnvironment (vv : VisitorState) (env : Environment) :
    (visitEnvironment vv env).configNames = vv.configNames := rfl

theorem configNames_visitApplication (vv : VisitorState) (env : Environment) (app : Application) :
    (visitApplication vv env app).configNames = vv.configNames := rfl

theorem configNames_visitService (vv : VisitorState) (env : Environment) (svc : Service) :
    (visitService vv env svc).configNames = vv.configNames := rfl

theorem serviceNames_visitEnvironment (vv : VisitorState) (env : Environment) :
    (visitEnvironment vv env).serviceNames = vv.serviceNames := rfl

theorem serviceNames_visitApplication (vv : VisitorState) (env : Environment) (app : Application) :
    (visitApplication vv env app).serviceNames = vv.serviceNames := rfl

theorem envNames_visitApplication (vv : VisitorState) (env : Environment) (app : Application) :
    (visitApplication vv env app).envNames = vv.envNames := rfl

theorem envNames_visitService (vv : VisitorState) (env : Environment) (svc : Service) :
    (visitService vv env svc).envNames = vv.envNames := rfl

theorem serviceURLs_visitEnvironment (vv : VisitorState) (env : Environment) :
    (visitEnvironment vv env).serviceURLs = vv.serviceURLs := rfl

theorem serviceURLs_visitApplication (vv : VisitorState) (env : Environment) (app : Application) :
    (visitApplication vv env app).serviceURLs = vv.serviceURLs := rfl

/-! ## Membership characterizations for the registries -/

theorem mem_checkDuplicate_snd (field path : String) (s : List String) (x : String) :
    x ∈ (checkDuplicate field path s).2 ↔ x = path ∨ x ∈ s := by
  unfold checkDuplicate
  split_ifs with h
  · exact ⟨fun hx => Or.inr hx, fun hx => hx.elim (fun e => e ▸ h) id⟩
  · simp [List.mem_cons]

theorem mem_setInsert (x y : String) (s : List String) :
    x ∈ setInsert y s ↔ x = y ∨ x ∈ s := by
  unfold setInsert
  split_ifs with h
  · exact ⟨fun hx => Or.inr hx, fun hx => hx.elim (fun e => e ▸ h) id⟩
  · simp [List.mem_cons]

theorem mem_envNames_visitEnvironment (vv : VisitorState) (env : Environment) (x : String) :
    x ∈ (visitEnvironment vv env).envNames ↔
      x = yamlPath (PathForEnvironment env) ∨ x ∈ vv.envNames :=
  mem_checkDuplicate_snd _ _ _ _

theorem mem_serviceNames_visitService (vv : VisitorState) (env : Environment) (svc : Service)
    (x : String) :
    x ∈ (visitService vv env svc).serviceNames ↔
      x = svc.Name ∨ x = yamlPath (PathForService env svc.Name) ∨ x ∈ vv.serviceNames := by
  show x ∈ setInsert svc.Name (checkDuplicate svc.Name _ vv.serviceNames).2 ↔ _
  rw [mem_setInsert, mem_checkDuplicate_snd]

/-! ## Error-list monotonicity through the folds -/

theorem mem_errs_appsFold (env : Environment) (apps : List Application) (vv : VisitorState)
    (e : VError) (h : e ∈ vv.errs) :
    e ∈ (apps.foldl (fun s app => visitApplication s env app) vv).errs := by
  induction apps generalizing vv with
  | nil => simpa using h
  | cons a rest ih =>
      simp only [List.foldl_cons]
      exact ih _ (by rw [errs_visitApplication]; exact List.mem_append_left _ h)

theorem mem_errs_svcsFold (env : Environment) (svcs : List Service) (vv : VisitorState)
    (e : VError) (h : e ∈ vv.errs) :
    e ∈ (svcs.foldl (fun s svc => visitService s env svc) vv).errs := by
  induction svcs generalizing vv with
  | nil => simpa using h
  | cons a rest ih =>
      simp only [List.foldl_cons]
      exact ih _ (by rw [errs_visitService]; exact List.mem_append_left _ h)

theorem mem_errs_visitEnvFull (vv : VisitorState) (env : Environment)
    (e : VError) (h : e ∈ vv.errs) :
    e ∈ (visitEnvFull vv env).errs := by
  unfold visitEnvFull
  exact mem_errs_svcsFold _ _ _ _ (mem_errs_appsFold _ _ _ _
    (by rw [errs_visitEnvironment]; exact List.mem_append_left _ h))

theorem mem_errs_walk (envs : List Environment) (vv : VisitorState)
    (e : VError) (h : e ∈ vv.errs) :
    e ∈ (walk vv envs).errs := by
  induction envs generalizing vv with
  | nil => simpa [walk] using h
  | cons env rest ih =>
      show e ∈ ((env :: rest).foldl visitEnvFull vv).errs
      simp only [List.foldl_cons]
      exact ih _ (mem_errs_visitEnvFull _ _ _ h)

end Odo

namespace Odo

/-! ## Registry behaviour through the folds -/

theorem serviceNames_appsFold (env : Environment) (apps : List Application) (vv : VisitorState) :
    (apps.foldl (fun s app => visitApplication s env app) vv).serviceNames = vv.serviceNames := by
  induction apps generalizing vv with
  | nil => rfl
  | cons a rest ih => simp only [List.foldl_cons]; rw [ih, serviceNames_visitApplication]

theorem configNames_appsFold (env : Environment) (apps : List Application) (vv : VisitorState) :
    (apps.foldl (fun s app => visitApplication s env app) vv).configNames = vv.configNames := by
  induction apps generalizing vv with
  | nil => rfl
  | cons a rest ih => simp only [List.foldl_cons]; rw [ih, configNames_visitApplication]

theorem configNames_svcsFold (env : Environment) (svcs : List Service) (vv : VisitorState) :
    (svcs.foldl (fun s svc => visitService s env svc) vv).configNames = vv.configNames := by
  induction svcs generalizing vv with
  | nil => rfl
  | cons a rest ih => simp only [List.foldl_cons]; rw [ih, configNames_visitService]

theorem configNames_visitEnvFull (vv : VisitorState) (env : Environment) :
    (visitEnvFull vv env).configNames = vv.configNames := by
  unfold visitEnvFull
  rw [configNames_svcsFold, configNames_appsFold, configNames_visitEnvironment]

theorem configNames_walk (envs : List Environment) (vv : VisitorState) :
    (walk vv envs).configNames = vv.configNames := by
  induction envs generalizing vv with
  | nil => rfl
  | cons env rest ih =>
      show ((env :: rest).foldl visitEnvFull vv).configNames = _
      simp only [List.foldl_cons]
      rw [show List.foldl visitEnvFull (visitEnvFull vv env) rest = walk (visitEnvFull vv env) rest from rfl,
        ih, configNames_visitEnvFull]

theorem envNames_appsFold (env : Environment) (apps : List Application) (vv : VisitorState) :
    (apps.foldl (fun s app => visitApplication s env app) vv).envNames = vv.envNames := by
  induction apps generalizing vv with
  | nil => rfl
  | cons a rest ih => simp only [List.foldl_cons]; rw [ih, envNames_visitApplication]

theorem envNames_svcsFold (env : Environment) (svcs : List Service) (vv : VisitorState) :
    (svcs.foldl (fun s svc => visitService s env svc) vv).envNames = vv.envNames := by
  induction svcs generalizing vv with
  | nil => rfl
  | cons a rest ih => simp only [List.foldl_cons]; rw [ih, envNames_visitService]

theorem envNames_visitEnvFull (vv : VisitorState) (env : Environment) (x : String) :
    x ∈ (visitEnvFull vv env).envNames ↔
      x = yamlPath (PathForEnvironment env) ∨ x ∈ vv.envNames := by
  unfold visitEnvFull
  rw [envNames_svcsFold, envNames_appsFold, mem_envNames_visitEnvironment]

theorem mem_envNames_walk (envs : List Environment) (vv : VisitorState) (x : String) :
    x ∈ (walk vv envs).envNames ↔
      x ∈ vv.envNames ∨ ∃ env ∈ envs, x = yamlPath (PathForEnvironment env) := by
  induction envs generalizing vv with
  | nil => simp [walk]
  | cons env rest ih =>
      show x ∈ ((env :: rest).foldl visitEnvFull vv).envNames ↔ _
      simp only [List.foldl_cons]
      rw [show (rest.foldl visitEnvFull (visitEnvFull vv env)) = walk (visitEnvFull vv env) rest from rfl,
        ih, envNames_visitEnvFull]
      simp only [List.mem_cons]
      constructor
      · rintro ((rfl | hx) | ⟨e, he, rfl⟩)
        · exact Or.inr ⟨env, Or.inl rfl, rfl⟩
        · exact Or.inl hx
        · exact Or.inr ⟨e, Or.inr he, rfl⟩
      · rintro (hx | ⟨e, (rfl | he), rfl⟩)
        · exact Or.inl (Or.inr hx)
        · exact Or.inl (Or.inl rfl)
        · exact Or.inr ⟨e, he, rfl⟩

theorem mem_svcKeys_cons (env : Environment) (rest : List Environment) (x : String) :
    x ∈ svcKeys (env :: rest) ↔
      (∃ svc ∈ env.Services, x = svc.Name ∨ x = yamlPath (PathForService env svc.Name)) ∨
        x ∈ svcKeys rest := by
  simp [svcKeys]

theorem mem_serviceNames_svcsFold (env : Environment) (svcs : List Service) (vv : VisitorState)
    (x : String) :
    x ∈ (svcs.foldl (fun s svc => visitService s env svc) vv).serviceNames ↔
      x ∈ vv.serviceNames ∨
        ∃ svc ∈ svcs, x = svc.Name ∨ x = yamlPath (PathForService env svc.Name) := by
  induction svcs generalizing vv with
  | nil => simp
  | cons a rest ih =>
      simp only [List.foldl_cons, List.mem_cons]
      rw [ih, mem_serviceNames_visitService]
      constructor
      · rintro ((rfl | rfl | hx) | ⟨s, hs, hor⟩)
        · exact Or.inr ⟨a, Or.inl rfl, Or.inl rfl⟩
        · exact Or.inr ⟨a, Or.inl rfl, Or.inr rfl⟩
        · exact Or.inl hx
        · exact Or.inr ⟨s, Or.inr hs, hor⟩
      · rintro (hx | ⟨s, (rfl | hs), hor⟩)
        · exact Or.inl (Or.inr (Or.inr hx))
        · rcases hor with rfl | rfl
          · exact Or.inl (Or.inl rfl)
          · exact Or.inl (Or.inr (Or.inl rfl))
        · exact Or.inr ⟨s, hs, hor⟩

theorem mem_serviceNames_visitEnvFull (vv : VisitorState) (env : Environment) (x : String) :
    x ∈ (visitEnvFull vv env).serviceNames ↔
      x ∈ vv.serviceNames ∨
        ∃ svc ∈ env.Services, x = svc.Name ∨ x = yamlPath (PathForService env svc.Name) := by
  unfold visitEnvFull
  rw [mem_serviceNames_svcsFold, serviceNames_appsFold, serviceNames_visitEnvironment]

theorem mem_serviceNames_walk (envs : List Environment) (vv : VisitorState) (x : String) :
    x ∈ (walk vv envs).serviceNames ↔ x ∈ vv.serviceNames ∨ x ∈ svcKeys envs := by
  induction envs generalizing vv with
  | nil => simp [walk, svcKeys]
  | cons env rest ih =>
      show x ∈ ((env :: rest).foldl visitEnvFull vv).serviceNames ↔ _
      simp only [List.foldl_cons]
      rw [show (rest.foldl visitEnvFull (visitEnvFull vv env)) = walk (visitEnvFull vv env) rest from rfl,
        ih, mem_serviceNames_visitEnvFull]
      rw [mem_svcKeys_cons]
      exact or_assoc

end Odo

namespace Odo

/-! ## validateConfig: which state components it touches -/

theorem serviceNames_validateConfig (vv : VisitorState) (m : Manifest) :
    (validateConfig vv m).serviceNames = vv.serviceNames := by
  unfold validateConfig
  rcases m with ⟨cfg?, envs⟩
  rcases cfg? with _ | ⟨a?, p?⟩
  · rfl
  · rcases a? with _ | a <;> rcases p? with _ | p <;> rfl

theorem envNames_validateConfig (vv : VisitorState) (m : Manifest) :
    (validateConfig vv m).envNames = vv.envNames := by
  unfold validateConfig
  rcases m with ⟨cfg?, envs⟩
  rcases cfg? with _ | ⟨a?, p?⟩
  · rfl
  · rcases a? with _ | a <;> rcases p? with _ | p <;> rfl

theorem serviceURLs_validateConfig (vv : VisitorState) (m : Manifest) :
    (validateConfig vv m).serviceURLs = vv.serviceURLs := by
  unfold validateConfig
  rcases m with ⟨cfg?, envs⟩
  rcases cfg? with _ | ⟨a?, p?⟩
  · rfl
  · rcases a? with _ | a <;> rcases p? with _ | p <;> rfl

/-! ## Emission lemmas: which errors a visit is guaranteed to append -/

theorem dupEnv_mem_environmentErrs (configNames envNames : List String) (env : Environment)
    (h : yamlPath (PathForEnvironment env) ∈ envNames) :
    VError.duplicateFields [env.Name] [yamlPath (PathForEnvironment env)] ∈
      environmentErrs configNames envNames env := by
  simp [environmentErrs, checkDuplicate, h]

theorem clash_mem_environmentErrs (configNames envNames : List String) (env : Environment)
    (h : env.Name ∈ configNames) :
    VError.envConfigNameClash env.Name ∈ environmentErrs configNames envNames env := by
  simp [environmentErrs, h]

theorem missingRef_mem_applicationErrs (an sn : List String) (env : Environment)
    (app : Application) (r : String) (hr : r ∈ app.ServiceRefs) (hn : r ∉ sn) :
    VError.missingServiceRef r app.Name [yamlPath (PathForApplication env app)] ∈
      applicationErrs an sn env app := by
  simp only [applicationErrs, List.mem_append]
  exact Or.inr (List.mem_filterMap.mpr ⟨r, hr, by simp [hn]⟩)

/-! ## Shape lemmas: which constructors each helper can produce -/

theorem checkDuplicate_fst_shape (f p : String) (s : List String) (e : VError)
    (h : e ∈ (checkDuplicate f p s).1.toList) : e = .duplicateFields [f] [p] := by
  unfold checkDuplicate at h
  split_ifs at h <;> simp_all

theorem validateName_shape (n p : String) (e : VError)
    (h : e ∈ (validateName n p).toList) : ∃ d, e = .invalidName n d [p] := by
  unfold validateName at h
  rcases hm : NameIsDNS1035Label n true with _ | ⟨d, rest⟩ <;> rw [hm] at h <;> simp_all

theorem validateConfigRepo_shape (repo : Repository) (p : String) (e : VError)
    (h : e ∈ validateConfigRepo repo p) :
    ∃ fs, e = .missingFields fs [p] ∧ (fs = ["url"] ∨ fs = ["path"] ∨ fs = ["url", "path"]) := by
  unfold validateConfigRepo at h
  split_ifs at h <;> simp_all

theorem validateWebhook_shape (hook : Option Webhook) (p : String) (e : VError)
    (h : e ∈ validateWebhook hook p) :
    (∃ fs ps, e = .missingFields fs ps) ∨ (∃ n d ps, e = .invalidName n d ps) := by
  unfold validateWebhook at h
  rcases hook with _ | ⟨sec?⟩
  · simp at h
  · rcases sec? with _ | sec
    · simp_all
    · simp only [List.mem_append] at h
      rcases h with h | h
      · obtain ⟨d, rfl⟩ := validateName_shape _ _ _ h
        exact Or.inr ⟨_, _, _, rfl⟩
      · obtain ⟨d, rfl⟩ := validateName_shape _ _ _ h
        exact Or.inr ⟨_, _, _, rfl⟩

theorem validatePipelines_shape (pls : Option Pipelines) (p : String) (e : VError)
    (h : e ∈ validatePipelines pls p) :
    (∃ fs ps, e = .missingFields fs ps) ∨ (∃ n d ps, e = .invalidName n d ps) := by
  unfold validatePipelines at h
  rcases pls with _ | ⟨integ?⟩
  · simp at h
  · rcases integ? with _ | integ
    · simp_all
    · obtain ⟨b, _, hb⟩ := List.mem_filterMap.mp h
      have he : e ∈ (validateName b (yamlJoin p ["pipelines", "integration", "binding"])).toList := by
        simp [hb]
      obtain ⟨d, rfl⟩ := validateName_shape _ _ _ he
      exact Or.inr ⟨_, _, _, rfl⟩

end Odo

namespace Odo

/-! ## Plumbing from accumulated errors to the result of Validate -/

theorem validateWith_eq_some (m : Manifest) (order : List (String × List String)) (e : VError)
    (h : e ∈ validateErrs m order) :
    ValidateWith m order = some (validateErrs m order) := by
  unfold ValidateWith
  rw [if_neg (List.ne_nil_of_mem h)]

theorem mem_validateErrs_of_final (m : Manifest) (order : List (String × List String))
    (e : VError) (h : e ∈ (finalState m).errs) : e ∈ validateErrs m order :=
  List.mem_append_left _ h

theorem PathForEnvironment_congr (env1 env2 : Environment) (h : env1.Name = env2.Name) :
    PathForEnvironment env1 = PathForEnvironment env2 := by
  simp [PathForEnvironment, h]

/-- Core of the duplicate-environment argument: if two positions `i < j` of
the environment list carry the same name, the walk records the
duplicate-fields error at position `j`. -/
theorem dup_env_walk (envs : List Environment) (vv : VisitorState) (i j : Nat)
    (hi : i < envs.length) (hj : j < envs.length) (hij : i < j)
    (hname : (envs.get ⟨i, hi⟩).Name = (envs.get ⟨j, hj⟩).Name) :
    VError.duplicateFields [(envs.get ⟨j, hj⟩).Name]
      [yamlPath (PathForEnvironment (envs.get ⟨j, hj⟩))] ∈ (walk vv envs).errs := by
  have hsplit : envs = envs.take j ++ envs.get ⟨j, hj⟩ :: envs.drop (j + 1) := by
    conv_lhs => rw [← List.take_append_drop j envs]
    rw [List.drop_eq_get_cons hj]
  have hw : walk vv envs =
      walk (visitEnvFull (walk vv (envs.take j)) (envs.get ⟨j, hj⟩)) (envs.drop (j + 1)) := by
    conv_lhs => rw [hsplit]
    unfold walk
    rw [List.foldl_append, List.foldl_cons]
  have hmem_take : envs.get ⟨i, hi⟩ ∈ envs.take j := by
    have hlen : i < (envs.take j).length := by
      rw [List.length_take]; exact lt_min hij hi
    have : envs.get ⟨i, hi⟩ = (envs.take j).get ⟨i, hlen⟩ := List.get_take envs hi hij
    rw [this]
    exact List.get_mem _ _ _
  have hpath : yamlPath (PathForEnvironment (envs.get ⟨j, hj⟩)) ∈
      (walk vv (envs.take j)).envNames := by
    rw [mem_envNames_walk]
    exact Or.inr ⟨envs.get ⟨i, hi⟩, hmem_take,
      congrArg yamlPath (PathForEnvironment_congr _ _ hname.symm)⟩
  have herr : VError.duplicateFields [(envs.get ⟨j, hj⟩).Name]
      [yamlPath (PathForEnvironment (envs.get ⟨j, hj⟩))] ∈
        (visitEnvFull (walk vv (envs.take j)) (envs.get ⟨j, hj⟩)).errs := by
    unfold visitEnvFull
    refine mem_errs_svcsFold _ _ _ _ (mem_errs_appsFold _ _ _ _ ?_)
    rw [errs_visitEnvironment]
    exact List.mem_append_right _ (dupEnv_mem_environmentErrs _ _ _ hpath)
  rw [hw]
  exact mem_errs_walk _ _ _ herr

end Odo

namespace Odo

/-- **C7**: `Validate` returns success (`none`) iff zero individual errors
were accumulated across the config check, the walk and the deferred
source-URL check; in particular, a manifest with zero environments and no
config block validates successfully. -/
theorem validate_success_iff_no_errors (m : Manifest) (order : List (String × List String)) :
    (ValidateWith m order = none ↔
      ((finalState m).errs = [] ∧ validateServiceURLsWith order = [])) ∧
    (m.Environments = [] → m.Config = none → Validate m = none) := by
  constructor
  · unfold ValidateWith validateErrs
    split_ifs with h
    · simp only [List.append_eq_nil] at h
      simp [h]
    · simp only [List.append_eq_nil] at h
      constructor
      · intro hsome; exact hsome.elim
      · intro hboth; exact absurd hboth h
  · intro he hc
    rcases m with ⟨cfg?, envs⟩
    dsimp only at he hc
    subst he; subst hc
    decide

/-- Witness for C7: the empty manifest validates successfully. -/
theorem validate_success_iff_no_errors_witness :
    Validate { Config := none, Environments := [] } = none :=
  (validate_success_iff_no_errors { Config := none, Environments := [] } []).2 rfl rfl

/-- **C1**: for every manifest containing two environments with equal
`Name` fields, at any two distinct positions, `Validate` reports the
duplicate-field error referencing that environment name; the registry
lookup in `checkDuplicate` is keyed by the computed path string
(`environments.<name>`), which coincides for equal names. -/
theorem validate_flags_duplicate_environment_names (m : Manifest) (i j : Nat)
    (hi : i < m.Environments.length) (hj : j < m.Environments.length) (hij : i ≠ j)
    (hname : (m.Environments.get ⟨i, hi⟩).Name = (m.Environments.get ⟨j, hj⟩).Name)
    (order : List (String × List String)) :
    VError.duplicateFields [(m.Environments.get ⟨j, hj⟩).Name]
        [yamlPath (PathForEnvironment (m.Environments.get ⟨j, hj⟩))] ∈ validateErrs m order ∧
      ValidateWith m order = some (validateErrs m order) := by
  have herr : VError.duplicateFields [(m.Environments.get ⟨j, hj⟩).Name]
      [yamlPath (PathForEnvironment (m.Environments.get ⟨j, hj⟩))] ∈ (finalState m).errs := by
    rcases Nat.lt_or_ge i j with hlt | hge
    · exact dup_env_walk m.Environments (validateConfig initState m) i j hi hj hlt hname
    · have hlt : j < i := lt_of_le_of_ne hge (Ne.symm hij)
      have h2 := dup_env_walk m.Environments (validateConfig initState m) j i hj hi hlt hname.symm
      have heq : VError.duplicateFields [(m.Environments.get ⟨i, hi⟩).Name]
          [yamlPath (PathForEnvironment (m.Environments.get ⟨i, hi⟩))] =
          VError.duplicateFields [(m.Environments.get ⟨j, hj⟩).Name]
          [yamlPath (PathForEnvironment (m.Environments.get ⟨j, hj⟩))] := by
        rw [hname, PathForEnvironment_congr _ _ hname]
      rw [← heq]
      exact h2
  have hin := mem_validateErrs_of_final m order _ herr
  exact ⟨hin, validateWith_eq_some m order _ hin⟩

/-- Witness for C1 at a concrete manifest with two environments named
`dev`. -/
theorem validate_flags_duplicate_environment_names_witness :
    VError.duplicateFields ["dev"] ["environments.dev"] ∈ validateErrs mC1 [] ∧
      ValidateWith mC1 [] = some (validateErrs mC1 []) := by
  have h := validate_flags_duplicate_environment_names mC1 0 1 (by decide) (by decide)
    (by decide) rfl []
  exact ⟨h.1, h.2⟩

end Odo

namespace Odo

/-! ## Counting lemmas for the application oneOf checks (C4) -/

theorem count_toList_checkDup_ne (f p : String) (s : List String) (e : VError)
    (h : ∀ fs ps, e ≠ .duplicateFields fs ps) :
    (checkDuplicate f p s).1.toList.count e = 0 := by
  rw [List.count_eq_zero]
  intro hm
  exact absurd (checkDuplicate_fst_shape _ _ _ _ hm) (h _ _)

theorem countP_toList_checkDup_notMulti (f p : String) (s : List String) :
    (checkDuplicate f p s).1.toList.countP isMultipleOneOf = 0 := by
  rw [List.countP_eq_zero]
  intro e hm
  rw [checkDuplicate_fst_shape _ _ _ _ hm]
  simp [isMultipleOneOf]

theorem count_toList_validateName_ne (n p : String) (e : VError)
    (h : ∀ nm d ps, e ≠ .invalidName nm d ps) :
    (validateName n p).toList.count e = 0 := by
  rw [List.count_eq_zero]
  intro hm
  obtain ⟨d, hd⟩ := validateName_shape _ _ _ hm
  exact absurd hd (h _ _ _)

theorem countP_toList_validateName_notMulti (n p : String) :
    (validateName n p).toList.countP isMultipleOneOf = 0 := by
  rw [List.countP_eq_zero]
  intro e hm
  obtain ⟨d, rfl⟩ := validateName_shape _ _ _ hm
  simp [isMultipleOneOf]

theorem count_if_singleton_self (c : Prop) [Decidable c] (x : VError) :
    (if c then [x] else []).count x = if c then 1 else 0 := by
  split_ifs <;> simp

theorem count_if_singleton_ne (c : Prop) [Decidable c] (x e : VError) (h : e ≠ x) :
    (if c then [x] else []).count e = 0 := by
  split_ifs <;> rw [List.count_eq_zero] <;> intro hm <;> simp_all

theorem countP_if_singleton_multi (c : Prop) [Decidable c] (ps : List String) :
    (if c then [VError.multipleOneOf ps] else []).countP isMultipleOneOf =
      if c then 1 else 0 := by
  split_ifs <;> simp [isMultipleOneOf]

theorem countP_if_singleton_notMulti (c : Prop) [Decidable c] (fs ps : List String) :
    (if c then [VError.missingFields fs ps] else []).countP isMultipleOneOf = 0 := by
  split_ifs <;> simp [isMultipleOneOf]

theorem count_configRepoBlock (repo? : Option Repository) (p : String) (e : VError)
    (h : ∀ fs ps, (fs = ["url"] ∨ fs = ["path"] ∨ fs = ["url", "path"]) →
      e ≠ .missingFields fs ps) :
    (match repo? with
      | some repo => validateConfigRepo repo p
      | none => ([] : List VError)).count e = 0 := by
  rcases repo? with _ | repo
  · rfl
  · rw [List.count_eq_zero]
    intro hm
    obtain ⟨fs, hfs, hcase⟩ := validateConfigRepo_shape _ _ _ hm
    exact absurd hfs (h _ _ hcase)

theorem countP_configRepoBlock_notMulti (repo? : Option Repository) (p : String) :
    (match repo? with
      | some repo => validateConfigRepo repo p
      | none => ([] : List VError)).countP isMultipleOneOf = 0 := by
  rcases repo? with _ | repo
  · rfl
  · rw [List.countP_eq_zero]
    intro e hm
    obtain ⟨fs, rfl, _⟩ := validateConfigRepo_shape _ _ _ hm
    simp [isMultipleOneOf]

theorem count_refsBlock (refs sn : List String) (appName appPath : String) (e : VError)
    (h : ∀ r a ps, e ≠ .missingServiceRef r a ps) :
    (refs.filterMap (fun r => if r ∈ sn then none
        else some (VError.missingServiceRef r appName [appPath]))).count e = 0 := by
  rw [List.count_eq_zero]
  intro hm
  obtain ⟨r, _, hr⟩ := List.mem_filterMap.mp hm
  by_cases hc : r ∈ sn
  · rw [if_pos hc] at hr; exact Option.noConfusion hr
  · rw [if_neg hc] at hr; exact absurd (Option.some_injective _ hr).symm (h _ _ _)

theorem countP_refsBlock_notMulti (refs sn : List String) (appName appPath : String) :
    (refs.filterMap (fun r => if r ∈ sn then none
        else some (VError.missingServiceRef r appName [appPath]))).countP isMultipleOneOf = 0 := by
  rw [List.countP_eq_zero]
  intro e hm
  obtain ⟨r, _, hr⟩ := List.mem_filterMap.mp hm
  by_cases hc : r ∈ sn
  · rw [if_pos hc] at hr; exact Option.noConfusion hr
  · rw [if_neg hc] at hr
    rw [← Option.some_injective _ hr]
    simp [isMultipleOneOf]

theorem applicationErrs_count_oneOfMissing (an sn : List String) (env : Environment)
    (app : Application) :
    (applicationErrs an sn env app).count
        (VError.missingFields ["services", "config_repo"] [yamlPath (PathForApplication env app)]) =
      if app.ServiceRefs.length = 0 ∧ app.ConfigRepo = none then 1 else 0 := by
  simp only [applicationErrs, List.count_append]
  rw [count_toList_checkDup_ne _ _ _ _ (fun _ _ h => VError.noConfusion h),
    count_toList_validateName_ne _ _ _ (fun _ _ _ h => VError.noConfusion h),
    count_if_singleton_self,
    count_if_singleton_ne _ _ _ (fun h => VError.noConfusion h),
    count_configRepoBlock _ _ _ ?hrepo,
    count_refsBlock _ _ _ _ _ (fun _ _ _ h => VError.noConfusion h)]
  · omega
  case hrepo =>
    rintro fs ps (rfl | rfl | rfl) h <;> injection h with h1 h2 <;>
      exact absurd h1 (by decide)

theorem applicationErrs_countP_multi (an sn : List String) (env : Environment)
    (app : Application) :
    (applicationErrs an sn env app).countP isMultipleOneOf =
      if app.ServiceRefs.length > 0 ∧ app.ConfigRepo ≠ none then 1 else 0 := by
  simp only [applicationErrs, List.countP_append]
  rw [countP_toList_checkDup_notMulti, countP_toList_validateName_notMulti,
    countP_if_singleton_notMulti, countP_if_singleton_multi,
    countP_configRepoBlock_notMulti, countP_refsBlock_notMulti]
  omega

end Odo

namespace Odo

/-- **C4**: each application visit emits exactly one oneOf-violation error
when the oneOf invariant is broken, and never both kinds: with neither
service refs nor a config repo it appends exactly one missing-fields error
listing `services` and `config_repo` and no mutually-exclusive error; with
both it appends exactly one mutually-exclusive (`multipleOneOf`) error and
no such missing-fields error; and no visit appends both. -/
theorem application_oneof_exactly_one (an sn : List String) (env : Environment)
    (app : Application) :
    (app.ServiceRefs = [] → app.ConfigRepo = none →
      (applicationErrs an sn env app).count
          (VError.missingFields ["services", "config_repo"]
            [yamlPath (PathForApplication env app)]) = 1 ∧
        (applicationErrs an sn env app).countP isMultipleOneOf = 0) ∧
    (app.ServiceRefs ≠ [] → app.ConfigRepo ≠ none →
      (applicationErrs an sn env app).countP isMultipleOneOf = 1 ∧
        (applicationErrs an sn env app).count
          (VError.missingFields ["services", "config_repo"]
            [yamlPath (PathForApplication env app)]) = 0) ∧
    ¬((applicationErrs an sn env app).count
          (VError.missingFields ["services", "config_repo"]
            [yamlPath (PathForApplication env app)]) > 0 ∧
      (applicationErrs an sn env app).countP isMultipleOneOf > 0) := by
  have hc := applicationErrs_count_oneOfMissing an sn env app
  have hp := applicationErrs_countP_multi an sn env app
  refine ⟨?_, ?_, ?_⟩
  · intro h1 h2
    rw [if_pos ⟨List.length_eq_zero.mpr h1, h2⟩] at hc
    rw [if_neg (by simp [h1])] at hp
    exact ⟨hc, hp⟩
  · intro h1 h2
    rw [if_neg (fun hand => h2 hand.2)] at hc
    rw [if_pos ⟨List.length_pos.mpr h1, h2⟩] at hp
    exact ⟨hp, hc⟩
  · rintro ⟨hgt1, hgt2⟩
    by_cases c1 : app.ServiceRefs.length = 0 ∧ app.ConfigRepo = none
    · by_cases c2 : app.ServiceRefs.length > 0 ∧ app.ConfigRepo ≠ none
      · exact absurd c1.1 (by omega)
      · rw [if_neg c2] at hp; omega
    · rw [if_neg c1] at hc; omega

/-- Witness for C4: an application with neither service refs nor a config
repo gets exactly the one missing-fields error and no mutually-exclusive
error. -/
theorem application_oneof_exactly_one_witness :
    (applicationErrs [] [] (mkEnv "dev")
        { Name := "app1", ServiceRefs := [], ConfigRepo := none }).count
        (VError.missingFields ["services", "config_repo"]
          [yamlPath (PathForApplication (mkEnv "dev")
            { Name := "app1", ServiceRefs := [], ConfigRepo := none })]) = 1 ∧
      (applicationErrs [] [] (mkEnv "dev")
        { Name := "app1", ServiceRefs := [], ConfigRepo := none }).countP isMultipleOneOf = 0 :=
  (application_oneof_exactly_one [] [] (mkEnv "dev")
    { Name := "app1", ServiceRefs := [], ConfigRepo := none }).1 rfl rfl

end Odo

namespace Odo

theorem mem_if_singleton {c : Prop} [Decidable c] {x e : VError}
    (h : e ∈ (if c then [x] else [])) : e = x := by
  split_ifs at h <;> simp_all

/-- Inversion: a `missingServiceRef` error about a reference `r` that is
already in the service-name registry can never be produced by the
application visit. -/
theorem missingRef_applicationErrs_not_mem (an sn : List String) (env : Environment)
    (app : Application) (r : String) (hr : r ∈ sn) (appn : String) (ps : List String) :
    VError.missingServiceRef r appn ps ∉ applicationErrs an sn env app := by
  intro hm
  simp only [applicationErrs, List.mem_append] at hm
  rcases hm with ((((h | h) | h) | h) | h) | h
  · exact VError.noConfusion (checkDuplicate_fst_shape _ _ _ _ h)
  · obtain ⟨d, hd⟩ := validateName_shape _ _ _ h
    exact VError.noConfusion hd
  · exact VError.noConfusion (mem_if_singleton h)
  · exact VError.noConfusion (mem_if_singleton h)
  · rcases happ : app.ConfigRepo with _ | repo
    · rw [happ] at h; simp at h
    · rw [happ] at h
      obtain ⟨fs, hfs, _⟩ := validateConfigRepo_shape _ _ _ h
      exact VError.noConfusion hfs
  · obtain ⟨r', hr', heq⟩ := List.mem_filterMap.mp h
    by_cases hc : r' ∈ sn
    · rw [if_pos hc] at heq; exact Option.noConfusion heq
    · rw [if_neg hc] at heq
      have := Option.some_injective _ heq
      injection this with h1 h2 h3
      exact hc (h1 ▸ hr)

/-- **C6**: after a service visit completes, the service's bare name is
registered in the service-name registry unconditionally — whether or not
any of its checks failed — and any later application visit whose registry
contains that name never emits a missing-service-reference error for
it. -/
theorem service_name_registered_unconditionally (vv : VisitorState) (env : Environment)
    (svc : Service) :
    svc.Name ∈ (visitService vv env svc).serviceNames ∧
    (∀ an sn : List String, ∀ env' : Environment, ∀ app : Application,
      svc.Name ∈ sn → ∀ appn ps,
        VError.missingServiceRef svc.Name appn ps ∉ applicationErrs an sn env' app) := by
  constructor
  · rw [mem_serviceNames_visitService]; exact Or.inl rfl
  · intro an sn env' app hmem appn ps
    exact missingRef_applicationErrs_not_mem an sn env' app _ hmem appn ps

/-- Witness for C6: an (invalid-URL-free) service registers `svc1`, and an
application whose registry holds `svc1` emits no missing-reference error
for it. -/
theorem service_name_registered_unconditionally_witness :
    "svc1" ∈ (visitService initState (mkEnv "dev") (mkService "svc1" "")).serviceNames ∧
      VError.missingServiceRef "svc1" "app1" ["p"] ∉
        applicationErrs [] ["svc1"] (mkEnv "dev")
          { Name := "app1", ServiceRefs := ["svc1"], ConfigRepo := none } := by
  have h := service_name_registered_unconditionally initState (mkEnv "dev") (mkService "svc1" "")
  exact ⟨h.1, h.2 [] ["svc1"] (mkEnv "dev")
    { Name := "app1", ServiceRefs := ["svc1"], ConfigRepo := none } (by decide) "app1" ["p"]⟩

/-- **C9**: the service-name registry receives path-keyed entries from
`checkDuplicate` (under the service's computed yaml path) alongside the
bare-name entries of the final registration, so an application whose
service refs contain a registered path string passes the
missing-service-reference check. -/
theorem service_path_key_pollutes_registry (vv : VisitorState) (env : Environment)
    (svc : Service) :
    yamlPath (PathForService env svc.Name) ∈ (visitService vv env svc).serviceNames ∧
    (∀ an sn : List String, ∀ env' : Environment, ∀ app : Application, ∀ r : String,
      r ∈ sn → ∀ appn ps,
        VError.missingServiceRef r appn ps ∉ applicationErrs an sn env' app) := by
  constructor
  · rw [mem_serviceNames_visitService]; exact Or.inr (Or.inl rfl)
  · intro an sn env' app r hr appn ps
    exact missingRef_applicationErrs_not_mem an sn env' app r hr appn ps

/-- Witness for C9: visiting `svc1` in environment `dev` registers the key
`environments.dev.services.svc1`, and an application referencing exactly
that path string passes the missing-service check. -/
theorem service_path_key_pollutes_registry_witness :
    "environments.dev.services.svc1" ∈
        (visitService initState (mkEnv "dev") (mkService "svc1" "")).serviceNames ∧
      VError.missingServiceRef "environments.dev.services.svc1" "app1" ["p"] ∉
        applicationErrs [] ["environments.dev.services.svc1"] (mkEnv "dev")
          { Name := "app1", ServiceRefs := ["environments.dev.services.svc1"],
            ConfigRepo := none } := by
  have h := service_path_key_pollutes_registry initState (mkEnv "dev") (mkService "svc1" "")
  exact ⟨h.1, h.2 [] ["environments.dev.services.svc1"] (mkEnv "dev")
    { Name := "app1", ServiceRefs := ["environments.dev.services.svc1"], ConfigRepo := none }
    "environments.dev.services.svc1" (by decide) "app1" ["p"]⟩

end Odo

namespace Odo

/-- **C5**: service references are checked against the service-name
registry as populated at the moment the application is visited; since the
walk visits applications of an environment before that environment's
services, any reference whose key (bare name or path) was not registered by
a strictly earlier environment's services is reported missing — even when
the referenced service is declared later in the manifest (including in the
same environment). -/
theorem forward_reference_reported_missing (m : Manifest) (j : Nat)
    (hj : j < m.Environments.length) (k : Nat)
    (hk : k < (m.Environments.get ⟨j, hj⟩).Apps.length) (r : String)
    (hr : r ∈ ((m.Environments.get ⟨j, hj⟩).Apps.get ⟨k, hk⟩).ServiceRefs)
    (hbefore : r ∉ svcKeys (m.Environments.take j))
    (order : List (String × List String)) :
    VError.missingServiceRef r ((m.Environments.get ⟨j, hj⟩).Apps.get ⟨k, hk⟩).Name
        [yamlPath (PathForApplication (m.Environments.get ⟨j, hj⟩)
          ((m.Environments.get ⟨j, hj⟩).Apps.get ⟨k, hk⟩))] ∈ validateErrs m order ∧
      ValidateWith m order = some (validateErrs m order) := by
  set envj := m.Environments.get ⟨j, hj⟩ with henvj
  set app := envj.Apps.get ⟨k, hk⟩ with happ
  set s0 := validateConfig initState m with hs0
  set s1 := walk s0 (m.Environments.take j) with hs1
  set s2 := (envj.Apps.take k).foldl (fun s a => visitApplication s envj a)
    (visitEnvironment s1 envj) with hs2
  have hsn2 : r ∉ s2.serviceNames := by
    rw [hs2, serviceNames_appsFold, serviceNames_visitEnvironment, hs1]
    intro hmem
    rcases (mem_serviceNames_walk _ _ _).mp hmem with hx | hx
    · rw [hs0, serviceNames_validateConfig] at hx
      exact absurd hx (List.not_mem_nil r)
    · exact hbefore hx
  have herr2 : VError.missingServiceRef r app.Name
      [yamlPath (PathForApplication envj app)] ∈ (visitApplication s2 envj app).errs := by
    rw [errs_visitApplication]
    exact List.mem_append_right _
      (missingRef_mem_applicationErrs _ _ _ _ r hr hsn2)
  have happs : envj.Apps = envj.Apps.take k ++ app :: envj.Apps.drop (k + 1) := by
    conv_lhs => rw [← List.take_append_drop k envj.Apps]
    rw [List.drop_eq_get_cons hk]
  have herrFull : VError.missingServiceRef r app.Name
      [yamlPath (PathForApplication envj app)] ∈ (visitEnvFull s1 envj).errs := by
    unfold visitEnvFull
    refine mem_errs_svcsFold _ _ _ _ ?_
    conv_lhs => rw [happs]
    rw [List.foldl_append, List.foldl_cons]
    exact mem_errs_appsFold _ _ _ _ herr2
  have hsplit : m.Environments = m.Environments.take j ++ envj :: m.Environments.drop (j + 1) := by
    conv_lhs => rw [← List.take_append_drop j m.Environments]
    rw [List.drop_eq_get_cons hj]
  have herrFinal : VError.missingServiceRef r app.Name
      [yamlPath (PathForApplication envj app)] ∈ (finalState m).errs := by
    show _ ∈ (walk s0 m.Environments).errs
    conv_lhs => rw [hsplit]
    show _ ∈ (List.foldl visitEnvFull s0 _).errs
    rw [List.foldl_append, List.foldl_cons]
    exact mem_errs_walk _ _ _ herrFull
  have hin := mem_validateErrs_of_final m order _ herrFinal
  exact ⟨hin, validateWith_eq_some m order _ hin⟩

/-- Witness for C5: an application referencing `svc1`, declared in the same
environment (hence visited later), is reported missing. -/
theorem forward_reference_reported_missing_witness :
    VError.missingServiceRef "svc1" "app1" ["environments.dev.apps.app1"] ∈
        validateErrs mC5 [] ∧
      ValidateWith mC5 [] = some (validateErrs mC5 []) := by
  have h := forward_reference_reported_missing mC5 0 (by decide) 0 (by decide) "svc1"
    (by decide) (by decide) []
  exact ⟨h.1, h.2⟩

end Odo

namespace Odo

theorem argo_mem_configNames (m : Manifest) (cfg : Config) (a : ArgoCDConfig)
    (hc : m.Config = some cfg) (ha : cfg.ArgoCDConfig = some a) :
    a.Namespace ∈ (validateConfig initState m).configNames := by
  unfold validateConfig
  rw [hc]
  dsimp only
  rw [ha]
  rcases hp : cfg.PipelineConfig with _ | p <;> dsimp only
  · rw [mem_setInsert]; exact Or.inl rfl
  · rw [mem_setInsert]
    exact Or.inr ((mem_setInsert _ _ _).mpr (Or.inl rfl))

theorem pipeline_mem_configNames (m : Manifest) (cfg : Config) (p : PipelinesConfig)
    (hc : m.Config = some cfg) (hp : cfg.PipelineConfig = some p) :
    p.Name ∈ (validateConfig initState m).configNames := by
  unfold validateConfig
  rw [hc]
  dsimp only
  rw [hp]
  rcases ha : cfg.ArgoCDConfig with _ | a <;> dsimp only <;>
    exact (mem_setInsert _ _ _).mpr (Or.inl rfl)

/-- Core of the environment/config-name collision argument: an environment
at position `i` whose name is in the (walk-invariant) config-name registry
receives the collision error. -/
theorem clash_env_walk (m : Manifest) (i : Nat) (hi : i < m.Environments.length)
    (h : (m.Environments.get ⟨i, hi⟩).Name ∈ (validateConfig initState m).configNames) :
    VError.envConfigNameClash (m.Environments.get ⟨i, hi⟩).Name ∈ (finalState m).errs := by
  set envi := m.Environments.get ⟨i, hi⟩ with henvi
  set s0 := validateConfig initState m with hs0
  set s1 := walk s0 (m.Environments.take i) with hs1
  have hcn : envi.Name ∈ s1.configNames := by
    rw [hs1, configNames_walk]
    exact h
  have herr : VError.envConfigNameClash envi.Name ∈ (visitEnvFull s1 envi).errs := by
    unfold visitEnvFull
    refine mem_errs_svcsFold _ _ _ _ (mem_errs_appsFold _ _ _ _ ?_)
    rw [errs_visitEnvironment]
    exact List.mem_append_right _ (clash_mem_environmentErrs _ _ _ hcn)
  have hsplit : m.Environments = m.Environments.take i ++ envi :: m.Environments.drop (i + 1) := by
    conv_lhs => rw [← List.take_append_drop i m.Environments]
    rw [List.drop_eq_get_cons hi]
  show _ ∈ (walk s0 m.Environments).errs
  conv_lhs => rw [hsplit]
  show _ ∈ (List.foldl visitEnvFull s0 _).errs
  rw [List.foldl_append, List.foldl_cons]
  exact mem_errs_walk _ _ _ herr

/-- **C10**: when the manifest carries a config block, `validateConfig`
registers the ArgoCD namespace and the pipeline config name into the
config-name registry unconditionally (the registration does not depend on
name validity), and every environment whose name is in that registry is
reported with the environment-versus-config-name collision error. -/
theorem config_names_registered_unconditionally (m : Manifest) (cfg : Config)
    (hc : m.Config = some cfg) :
    (∀ a, cfg.ArgoCDConfig = some a →
      a.Namespace ∈ (validateConfig initState m).configNames) ∧
    (∀ p, cfg.PipelineConfig = some p →
      p.Name ∈ (validateConfig initState m).configNames) ∧
    (∀ i, ∀ hi : i < m.Environments.length,
      (m.Environments.get ⟨i, hi⟩).Name ∈ (validateConfig initState m).configNames →
      ∀ order,
        VError.envConfigNameClash (m.Environments.get ⟨i, hi⟩).Name ∈ validateErrs m order ∧
          ValidateWith m order = some (validateErrs m order)) := by
  refine ⟨fun a ha => argo_mem_configNames m cfg a hc ha,
    fun p hp => pipeline_mem_configNames m cfg p hc hp, ?_⟩
  intro i hi hmem order
  have hin := mem_validateErrs_of_final m order _ (clash_env_walk m i hi hmem)
  exact ⟨hin, validateWith_eq_some m order _ hin⟩

/-- Witness for C10: config block with ArgoCD namespace `dev` and an
environment also named `dev` yields the collision error. -/
theorem config_names_registered_unconditionally_witness :
    "dev" ∈ (validateConfig initState mC10).configNames ∧
      VError.envConfigNameClash "dev" ∈ validateErrs mC10 [] ∧
        ValidateWith mC10 [] = some (validateErrs mC10 []) := by
  have h := config_names_registered_unconditionally mC10
    { ArgoCDConfig := some { Namespace := "dev" }, PipelineConfig := none } rfl
  have h1 := h.1 { Namespace := "dev" } rfl
  have h3 := h.2.2 0 (by decide) (by decide) []
  exact ⟨h1, h3.1, h3.2⟩

end Odo

namespace Odo

theorem lastIsLowerAlnum_getLast? (s : List Char) (h : lastIsLowerAlnum s = true) :
    ∀ c, s.getLast? = some c → isLowerAlnum c = true := by
  induction s with
  | nil => intro c hc; cases hc
  | cons a rest ih =>
      intro c hc
      rcases rest with _ | ⟨b, rest'⟩
      · simp only [List.getLast?_singleton, Option.some_inj] at hc
        subst hc
        exact h
      · rw [List.getLast?_cons_cons] at hc
        exact ih (by simpa [lastIsLowerAlnum] using h) c hc

theorem matchesDNS1035_no_trailing_dash (s : List Char) (h : matchesDNS1035 s = true) :
    s.getLast? ≠ some '-' := by
  intro hc
  rcases s with _ | ⟨a, rest⟩
  · cases hc
  · simp only [matchesDNS1035, Bool.and_eq_true] at h
    have := lastIsLowerAlnum_getLast? _ h.2 '-' hc
    simp [isLowerAlnum, isLowerAlpha] at this

/-- **C8** counterexample: the name `ab-` is accepted by `validateName`
(the library call masks a trailing dash because the source passes
`prefix = true`), yet it does not match the claimed grammar
`[a-z]([-a-z0-9]*[a-z0-9])?`. -/
theorem validateName_accepts_nonmatching_name :
    validateName "ab-" "p" = none ∧ dns1035SpecMatch "ab-" = false := by decide

/-- **C8** (amended): `validateName` accepts every string matching the
DNS-label grammar with length at most 63, and on strings not ending in a
dash it accepts exactly the grammar; strings ending in a dash may also be
accepted because the rule is applied in prefix mode (trailing-dash
masking).  Every rejected string produces an invalid-name error carrying
the rejected value, the underlying reason, and the triggering path. -/
theorem validateName_boundary_amended (name path : String) :
    (dns1035SpecMatch name = true → validateName name path = none) ∧
    (name.data.getLast? ≠ some '-' →
      (validateName name path = none ↔ dns1035SpecMatch name = true)) ∧
    (∀ e, validateName name path = some e → ∃ d, e = .invalidName name d [path]) := by
  have hcore : maskTrailingDash name = name →
      (validateName name path = none ↔ dns1035SpecMatch name = true) := by
    intro hmask
    unfold validateName NameIsDNS1035Label
    rw [if_pos rfl, hmask]
    unfold IsDNS1035Label dns1035SpecMatch
    by_cases hlen : name.utf8ByteSize > 63
    · rw [if_pos hlen]
      constructor
      · intro h
        rcases hm : matchesDNS1035 name.data <;> rw [hm] at h <;> simp at h
      · intro h
        simp only [Bool.and_eq_true, decide_eq_true_eq] at h
        omega
    · rw [if_neg hlen]
      by_cases hm : matchesDNS1035 name.data = true
      · rw [if_pos hm]
        simp [hm, Nat.le_of_not_lt hlen]
      · rw [if_neg hm]
        constructor
        · intro h; simp at h
        · intro h
          simp only [Bool.and_eq_true] at h
          exact absurd h.1 hm
  refine ⟨?_, ?_, ?_⟩
  · intro hspec
    have hm : matchesDNS1035 name.data = true := by
      simp only [dns1035SpecMatch, Bool.and_eq_true] at hspec
      exact hspec.1
    have hmask : maskTrailingDash name = name := by
      unfold maskTrailingDash
      rw [if_neg]
      rintro ⟨h1, h2⟩
      exact matchesDNS1035_no_trailing_dash _ hm h2
    exact (hcore hmask).mpr hspec
  · intro hnd
    refine hcore ?_
    unfold maskTrailingDash
    rw [if_neg]
    rintro ⟨h1, h2⟩
    exact hnd h2
  · intro e he
    unfold validateName at he
    rcases hv : NameIsDNS1035Label name true with _ | ⟨d, rest⟩ <;> rw [hv] at he
    · cases he
    · exact ⟨d, (Option.some_injective _ he).symm⟩

/-- Witness for C8's amended theorem at the claim's boundary examples. -/
theorem validateName_boundary_amended_witness :
    validateName "abc-123" "p" = none ∧
      validateName "a" "p" = none ∧
      validateName "" "p" ≠ none ∧
      validateName "-abc" "p" ≠ none ∧
      validateName (String.mk (List.replicate 64 'a')) "p" ≠ none := by
  have h1 := (validateName_boundary_amended "abc-123" "p").1 (by decide)
  have h2 := (validateName_boundary_amended "a" "p").1 (by decide)
  have h3 := (validateName_boundary_amended "" "p").2.1 (by decide)
  have h4 := (validateName_boundary_amended "-abc" "p").2.1 (by decide)
  have h5 := (validateName_boundary_amended (String.mk (List.replicate 64 'a')) "p").2.1 (by decide)
  refine ⟨h1, h2, ?_, ?_, ?_⟩
  · intro hn; exact absurd (h3.mp hn) (by decide)
  · intro hn; exact absurd (h4.mp hn) (by decide)
  · intro hn; exact absurd (h5.mp hn) (by decide)

end Odo

namespace Odo

/-! ## The serviceURLs multimap through the walk (C3) -/

theorem urlAcc_append (a : List (String × List String)) (l1 l2 : List (String × String)) :
    urlAcc a (l1 ++ l2) = urlAcc (urlAcc a l1) l2 :=
  List.foldl_append _ _ _ _

theorem serviceURLs_visitService (vv : VisitorState) (env : Environment) (svc : Service) :
    (visitService vv env svc).serviceURLs =
      urlAcc vv.serviceURLs
        (if svc.SourceURL = "" then []
         else [(svc.SourceURL, yamlPath (PathForService env svc.Name))]) := by
  show (if svc.SourceURL = "" then vv.serviceURLs else assocAppend _ _ _) = _
  split_ifs with h <;> simp [urlAcc]

theorem serviceURLs_svcsFold (env : Environment) (svcs : List Service) (vv : VisitorState) :
    (svcs.foldl (fun s svc => visitService s env svc) vv).serviceURLs =
      urlAcc vv.serviceURLs
        (svcs.flatMap (fun s => if s.SourceURL = "" then []
          else [(s.SourceURL, yamlPath (PathForService env s.Name))])) := by
  induction svcs generalizing vv with
  | nil => rfl
  | cons a rest ih =>
      simp only [List.foldl_cons, List.flatMap_cons]
      rw [ih, serviceURLs_visitService, ← urlAcc_append]

theorem serviceURLs_appsFold (env : Environment) (apps : List Application) (vv : VisitorState) :
    (apps.foldl (fun s app => visitApplication s env app) vv).serviceURLs = vv.serviceURLs := by
  induction apps generalizing vv with
  | nil => rfl
  | cons a rest ih => simp only [List.foldl_cons]; rw [ih, serviceURLs_visitApplication]

theorem serviceURLs_visitEnvFull (vv : VisitorState) (env : Environment) :
    (visitEnvFull vv env).serviceURLs = urlAcc vv.serviceURLs (envURLPairs env) := by
  unfold visitEnvFull envURLPairs
  rw [serviceURLs_svcsFold, serviceURLs_appsFold, serviceURLs_visitEnvironment]

theorem serviceURLs_walk (envs : List Environment) (vv : VisitorState) :
    (walk vv envs).serviceURLs = urlAcc vv.serviceURLs (urlPairs envs) := by
  induction envs generalizing vv with
  | nil => rfl
  | cons env rest ih =>
      show ((env :: rest).foldl visitEnvFull vv).serviceURLs = _
      simp only [List.foldl_cons]
      rw [show (rest.foldl visitEnvFull (visitEnvFull vv env)) = walk (visitEnvFull vv env) rest from rfl,
        ih, serviceURLs_visitEnvFull]
      show urlAcc (urlAcc vv.serviceURLs (envURLPairs env)) (urlPairs rest) =
        urlAcc vv.serviceURLs (envURLPairs env ++ urlPairs rest)
      rw [urlAcc_append]

theorem serviceURLs_finalState (m : Manifest) :
    (finalState m).serviceURLs = urlAcc [] (urlPairs m.Environments) := by
  unfold finalState
  rw [serviceURLs_walk, serviceURLs_validateConfig]
  rfl

/-! ## Association-list lemmas for `assocAppend` / `urlAcc` -/

theorem assocLookup_assocAppend (a : List (String × List String)) (u p k : String) :
    assocLookup k (assocAppend a u p) =
      if k = u then some ((assocLookup u a).getD [] ++ [p]) else assocLookup k a := by
  induction a with
  | nil =>
      simp only [assocAppend, assocLookup]
      by_cases hk : k = u
      · subst hk
        rw [if_pos rfl, if_pos rfl]
        rfl
      · rw [if_neg (fun h : u = k => hk h.symm), if_neg hk]
  | cons e rest ih =>
      obtain ⟨k', v⟩ := e
      by_cases hku : k' = u
      · subst hku
        simp only [assocAppend, if_pos rfl, assocLookup]
        by_cases hk : k' = k
        · subst hk
          simp
        · rw [if_neg hk, if_neg (fun h : k = k' => hk h.symm)]
          rw [if_neg hk]
      · simp only [assocAppend, if_neg hku, assocLookup]
        by_cases hk : k' = k
        · subst hk
          rw [if_pos rfl, if_neg (fun h : k' = u => hku h), if_pos rfl]
        · rw [if_neg hk, ih]
          by_cases hk2 : k = u
          · rw [if_pos hk2, if_pos hk2]
          · rw [if_neg hk2, if_neg hk2, if_neg hk]

end Odo

namespace Odo

theorem assocKeys_assocAppend (a : List (String × List String)) (u p : String) :
    assocKeys (assocAppend a u p) =
      if u ∈ assocKeys a then assocKeys a else assocKeys a ++ [u] := by
  induction a with
  | nil => simp [assocAppend, assocKeys]
  | cons e rest ih =>
      obtain ⟨k', v⟩ := e
      by_cases hku : k' = u
      · subst hku
        rw [show assocAppend ((k', v) :: rest) k' p = (k', v ++ [p]) :: rest from by
          simp [assocAppend]]
        rw [if_pos (show k' ∈ assocKeys ((k', v) :: rest) from
          List.mem_cons_self k' (assocKeys rest))]
        rfl
      · rw [show assocAppend ((k', v) :: rest) u p = (k', v) :: assocAppend rest u p from by
          simp [assocAppend, hku]]
        rw [show assocKeys ((k', v) :: assocAppend rest u p) =
          k' :: assocKeys (assocAppend rest u p) from rfl, ih]
        by_cases hmem : u ∈ assocKeys rest
        · rw [if_pos hmem,
            if_pos (show u ∈ assocKeys ((k', v) :: rest) from List.mem_cons_of_mem _ hmem)]
          rfl
        · have hnot : u ∉ assocKeys ((k', v) :: rest) := by
            intro hm
            rcases List.mem_cons.mp hm with h | h
            · exact hku h.symm
            · exact hmem h
          rw [if_neg hmem, if_neg hnot]
          rfl

theorem nodup_assocKeys_urlAcc (ps : List (String × String)) (a : List (String × List String))
    (h : (assocKeys a).Nodup) : (assocKeys (urlAcc a ps)).Nodup := by
  induction ps generalizing a with
  | nil => exact h
  | cons e rest ih =>
      show (assocKeys (urlAcc (assocAppend a e.1 e.2) rest)).Nodup
      refine ih _ ?_
      rw [assocKeys_assocAppend]
      split_ifs with hmem
      · exact h
      · simp [List.nodup_append, h, hmem]

theorem assocLookup_urlAcc_some (ps : List (String × String)) (a : List (String × List String))
    (u : String) (l : List String) (h : assocLookup u a = some l) :
    assocLookup u (urlAcc a ps) =
      some (l ++ (ps.filter (fun p => p.1 == u)).map (fun p => p.2)) := by
  induction ps generalizing a l with
  | nil => simpa using h
  | cons e rest ih =>
      obtain ⟨v, p⟩ := e
      show assocLookup u (urlAcc (assocAppend a v p) rest) = _
      by_cases hv : v = u
      · subst hv
        have hstep : assocLookup v (assocAppend a v p) = some (l ++ [p]) := by
          rw [assocLookup_assocAppend, if_pos rfl, h]
          rfl
        rw [ih _ _ hstep]
        simp [List.filter_cons]
      · have hstep : assocLookup u (assocAppend a v p) = some l := by
          rw [assocLookup_assocAppend, if_neg (fun hh => hv hh.symm)]
          exact h
        rw [ih _ _ hstep]
        have : ((⟨v, p⟩ : String × String) :: rest).filter (fun p => p.1 == u) =
            rest.filter (fun p => p.1 == u) := by
          simp [List.filter_cons, hv]
        rw [this]

theorem assocLookup_urlAcc_none (ps : List (String × String)) (a : List (String × List String))
    (u : String) (h : assocLookup u a = none) :
    assocLookup u (urlAcc a ps) =
      if (ps.filter (fun p => p.1 == u)) = [] then none
      else some ((ps.filter (fun p => p.1 == u)).map (fun p => p.2)) := by
  induction ps generalizing a with
  | nil => simpa using h
  | cons e rest ih =>
      obtain ⟨v, p⟩ := e
      show assocLookup u (urlAcc (assocAppend a v p) rest) = _
      by_cases hv : v = u
      · subst hv
        have hstep : assocLookup v (assocAppend a v p) = some [p] := by
          rw [assocLookup_assocAppend, if_pos rfl, h]
          rfl
        rw [assocLookup_urlAcc_some rest _ _ _ hstep]
        have : ((⟨v, p⟩ : String × String) :: rest).filter (fun q => q.1 == v) =
            ⟨v, p⟩ :: rest.filter (fun q => q.1 == v) := by
          simp [List.filter_cons]
        rw [this]
        simp
      · have hstep : assocLookup u (assocAppend a v p) = none := by
          rw [assocLookup_assocAppend, if_neg (fun hh => hv hh.symm)]
          exact h
        rw [ih _ hstep]
        have : ((⟨v, p⟩ : String × String) :: rest).filter (fun q => q.1 == u) =
            rest.filter (fun q => q.1 == u) := by
          simp [List.filter_cons, hv]
        rw [this]

end Odo

namespace Odo

/-! ## Key-uniqueness and counting over the URL map (C3) -/

theorem countP_key_zero (S : List (String × List String)) (u : String)
    (h : u ∉ assocKeys S) : S.countP (fun e => e.1 == u) = 0 := by
  rw [List.countP_eq_zero]
  intro e he hbeq
  exact h (List.mem_map.mpr ⟨e, he, by simpa using hbeq⟩)

theorem assoc_unique_entry (S : List (String × List String)) (u : String) (l : List String)
    (hnd : (assocKeys S).Nodup) (h : assocLookup u S = some l) :
    (u, l) ∈ S ∧ S.countP (fun e => e.1 == u) = 1 ∧
      ∀ e ∈ S, e.1 = u → e = (u, l) := by
  induction S with
  | nil => cases h
  | cons e rest ih =>
      obtain ⟨k', v⟩ := e
      have hnd' : (assocKeys rest).Nodup := (List.nodup_cons.mp hnd).2
      have hknot : k' ∉ assocKeys rest := (List.nodup_cons.mp hnd).1
      by_cases hk : k' = u
      · subst hk
        have hv : v = l := by
          have := h
          unfold assocLookup at this
          rw [if_pos rfl] at this
          exact Option.some_injective _ this
        subst hv
        refine ⟨List.mem_cons_self _ _, ?_, ?_⟩
        · rw [List.countP_cons]
          rw [countP_key_zero rest k' hknot]
          simp
        · intro e he heq
          rcases List.mem_cons.mp he with rfl | hmem
          · rfl
          · exact absurd (heq ▸ List.mem_map.mpr ⟨e, hmem, rfl⟩) hknot
      · have h' : assocLookup u rest = some l := by
          have := h
          unfold assocLookup at this
          rw [if_neg hk] at this
          exact this
        obtain ⟨hmem, hcount, huniq⟩ := ih hnd' h'
        refine ⟨List.mem_cons_of_mem _ hmem, ?_, ?_⟩
        · rw [List.countP_cons, hcount]
          simp [hk]
        · intro e he heq
          rcases List.mem_cons.mp he with rfl | hm
          · exact absurd heq hk
          · exact huniq e hm heq

theorem countP_validateServiceURLsWith (u : String) (order : List (String × List String)) :
    (validateServiceURLsWith order).countP (isDupSourceFor u) =
      order.countP (fun e => decide (e.2.length > 1) && (e.1 == u)) := by
  induction order with
  | nil => rfl
  | cons e rest ih =>
      by_cases hlen : e.2.length > 1
      · simp only [validateServiceURLsWith, List.filterMap_cons, if_pos hlen] at *
        rw [List.countP_cons, List.countP_cons, ih]
        simp [isDupSourceFor, hlen]
      · simp only [validateServiceURLsWith, List.filterMap_cons, if_neg hlen] at *
        rw [List.countP_cons, ih]
        simp [hlen]

/-! ## The walk produces no duplicate-source errors (C3) -/

theorem environmentErrs_no_dupSource (cn en : List String) (env : Environment) (e : VError)
    (h : e ∈ environmentErrs cn en env) : ∀ u ps, e ≠ .duplicateSource u ps := by
  intro u ps heq
  subst heq
  simp only [environmentErrs, List.mem_append] at h
  rcases h with ((h | h) | h) | h
  · exact VError.noConfusion (mem_if_singleton h)
  · exact VError.noConfusion (checkDuplicate_fst_shape _ _ _ _ h)
  · obtain ⟨d, hd⟩ := validateName_shape _ _ _ h
    exact VError.noConfusion hd
  · rcases validatePipelines_shape _ _ _ h with ⟨fs, ps', hfp⟩ | ⟨n, d, ps', hfp⟩ <;>
      exact VError.noConfusion hfp

theorem applicationErrs_no_dupSource (an sn : List String) (env : Environment)
    (app : Application) (e : VError) (h : e ∈ applicationErrs an sn env app) :
    ∀ u ps, e ≠ .duplicateSource u ps := by
  intro u ps heq
  subst heq
  simp only [applicationErrs, List.mem_append] at h
  rcases h with ((((h | h) | h) | h) | h) | h
  · exact VError.noConfusion (checkDuplicate_fst_shape _ _ _ _ h)
  · obtain ⟨d, hd⟩ := validateName_shape _ _ _ h
    exact VError.noConfusion hd
  · exact VError.noConfusion (mem_if_singleton h)
  · exact VError.noConfusion (mem_if_singleton h)
  · rcases happ : app.ConfigRepo with _ | repo
    · rw [happ] at h; simp at h
    · rw [happ] at h
      obtain ⟨fs, hfs, _⟩ := validateConfigRepo_shape _ _ _ h
      exact VError.noConfusion hfs
  · obtain ⟨r', hr', hres⟩ := List.mem_filterMap.mp h
    by_cases hc : r' ∈ sn
    · rw [if_pos hc] at hres; exact Option.noConfusion hres
    · rw [if_neg hc] at hres
      exact VError.noConfusion (Option.some_injective _ hres)

theorem serviceErrs_no_dupSource (sn : List String) (env : Environment) (svc : Service)
    (e : VError) (h : e ∈ serviceErrs sn env svc) : ∀ u ps, e ≠ .duplicateSource u ps := by
  intro u ps heq
  subst heq
  simp only [serviceErrs, List.mem_append] at h
  rcases h with ((h | h) | h) | h
  · exact VError.noConfusion (checkDuplicate_fst_shape _ _ _ _ h)
  · obtain ⟨d, hd⟩ := validateName_shape _ _ _ h
    exact VError.noConfusion hd
  · rcases validateWebhook_shape _ _ _ h with ⟨fs, ps', hfp⟩ | ⟨n, d, ps', hfp⟩ <;>
      exact VError.noConfusion hfp
  · rcases validatePipelines_shape _ _ _ h with ⟨fs, ps', hfp⟩ | ⟨n, d, ps', hfp⟩ <;>
      exact VError.noConfusion hfp

theorem no_dupSource_appsFold (env : Environment) (apps : List Application) (vv : VisitorState)
    (h : ∀ e ∈ vv.errs, ∀ u ps, e ≠ VError.duplicateSource u ps) :
    ∀ e ∈ (apps.foldl (fun s app => visitApplication s env app) vv).errs,
      ∀ u ps, e ≠ VError.duplicateSource u ps := by
  induction apps generalizing vv with
  | nil => exact h
  | cons a rest ih =>
      simp only [List.foldl_cons]
      refine ih _ ?_
      intro e he
      rw [errs_visitApplication] at he
      rcases List.mem_append.mp he with hm | hm
      · exact h e hm
      · exact applicationErrs_no_dupSource _ _ _ _ _ hm

theorem no_dupSource_svcsFold (env : Environment) (svcs : List Service) (vv : VisitorState)
    (h : ∀ e ∈ vv.errs, ∀ u ps, e ≠ VError.duplicateSource u ps) :
    ∀ e ∈ (svcs.foldl (fun s svc => visitService s env svc) vv).errs,
      ∀ u ps, e ≠ VError.duplicateSource u ps := by
  induction svcs generalizing vv with
  | nil => exact h
  | cons a rest ih =>
      simp only [List.foldl_cons]
      refine ih _ ?_
      intro e he
      rw [errs_visitService] at he
      rcases List.mem_append.mp he with hm | hm
      · exact h e hm
      · exact serviceErrs_no_dupSource _ _ _ _ hm

theorem no_dupSource_walk (envs : List Environment) (vv : VisitorState)
    (h : ∀ e ∈ vv.errs, ∀ u ps, e ≠ VError.duplicateSource u ps) :
    ∀ e ∈ (walk vv envs).errs, ∀ u ps, e ≠ VError.duplicateSource u ps := by
  induction envs generalizing vv with
  | nil => exact h
  | cons env rest ih =>
      show ∀ e ∈ ((env :: rest).foldl visitEnvFull vv).errs, _
      simp only [List.foldl_cons]
      refine ih _ ?_
      unfold visitEnvFull
      refine no_dupSource_svcsFold _ _ _ (no_dupSource_appsFold _ _ _ ?_)
      intro e he
      rw [errs_visitEnvironment] at he
      rcases List.mem_append.mp he with hm | hm
      · exact h e hm
      · exact environmentErrs_no_dupSource _ _ _ _ hm

theorem no_dupSource_validateConfig (m : Manifest) :
    ∀ e ∈ (validateConfig initState m).errs, ∀ u ps, e ≠ VError.duplicateSource u ps := by
  intro e he u ps heq
  subst heq
  unfold validateConfig at he
  rcases hc : m.Config with _ | cfg
  · rw [hc] at he; cases he
  · rw [hc] at he
    dsimp only at he
    rcases ha : cfg.ArgoCDConfig with _ | a <;> rw [ha] at he <;>
      rcases hp : cfg.PipelineConfig with _ | p <;> rw [hp] at he <;> dsimp only at he <;>
      simp only [initState, List.nil_append, List.mem_append] at he
    · cases he
    · obtain ⟨d, hd⟩ := validateName_shape _ _ _ he
      exact VError.noConfusion hd
    · obtain ⟨d, hd⟩ := validateName_shape _ _ _ he
      exact VError.noConfusion hd
    · rcases he with he | he <;>
      · obtain ⟨d, hd⟩ := validateName_shape _ _ _ he
        exact VError.noConfusion hd

theorem countP_finalState_dupSource_zero (m : Manifest) (u : String) :
    (finalState m).errs.countP (isDupSourceFor u) = 0 := by
  rw [List.countP_eq_zero]
  intro e he hbeq
  have hne := no_dupSource_walk m.Environments (validateConfig initState m)
    (no_dupSource_validateConfig m) e he
  cases e with
  | invalidName n d ps => simp [isDupSourceFor] at hbeq
  | missingFields fs ps => simp [isDupSourceFor] at hbeq
  | duplicateFields fs ps => simp [isDupSourceFor] at hbeq
  | missingServiceRef s a ps => simp [isDupSourceFor] at hbeq
  | duplicateSource u' ps => exact hne u' ps rfl
  | envConfigNameClash n => simp [isDupSourceFor] at hbeq
  | multipleOneOf ps => simp [isDupSourceFor] at hbeq

end Odo

namespace Odo

/-- **C3**: whenever at least two service declarations (at their
traversal-order paths) share the same non-empty `SourceURL`, and for every
admissible iteration order of the URL map, `Validate` returns an error
list containing exactly one duplicate-source error about that URL — the
single error lists all declaring paths in traversal order — and never one
error per declaration; the walk itself contributes no duplicate-source
error, the check running only over the map accumulated by the completed
traversal. -/
theorem duplicate_source_reported_once (m : Manifest) (u : String) (hu : u ≠ "")
    (order : List (String × List String)) (hord : order.Perm (finalState m).serviceURLs)
    (hN : 2 ≤ (declPaths m.Environments u).length) :
    VError.duplicateSource u (declPaths m.Environments u) ∈ validateErrs m order ∧
      (validateErrs m order).countP (isDupSourceFor u) = 1 ∧
      ValidateWith m order = some (validateErrs m order) := by
  have hS : (finalState m).serviceURLs = urlAcc [] (urlPairs m.Environments) :=
    serviceURLs_finalState m
  have hfilterlen : (declPaths m.Environments u).length =
      ((urlPairs m.Environments).filter (fun p => p.1 == u)).length := by
    unfold declPaths
    rw [List.length_map]
  have hfilterne : (urlPairs m.Environments).filter (fun p => p.1 == u) ≠ [] := by
    intro hnil
    rw [hfilterlen, hnil] at hN
    simp at hN
  have hlook : assocLookup u (finalState m).serviceURLs = some (declPaths m.Environments u) := by
    rw [hS, assocLookup_urlAcc_none (urlPairs m.Environments) [] u (by rfl),
      if_neg hfilterne]
    rfl
  have hnd : (assocKeys (finalState m).serviceURLs).Nodup := by
    rw [hS]
    exact nodup_assocKeys_urlAcc _ _ List.nodup_nil
  obtain ⟨hmemS, hcountS, huniqS⟩ := assoc_unique_entry _ _ _ hnd hlook
  have hlen : 1 < (declPaths m.Environments u).length := by omega
  have hmemErr : VError.duplicateSource u (declPaths m.Environments u) ∈
      validateErrs m order := by
    refine List.mem_append_right _ ?_
    refine List.mem_filterMap.mpr ⟨(u, declPaths m.Environments u), (hord.mem_iff).mpr hmemS, ?_⟩
    rw [if_pos hlen]
  refine ⟨hmemErr, ?_, validateWith_eq_some m order _ hmemErr⟩
  unfold validateErrs
  rw [List.countP_append, countP_finalState_dupSource_zero,
    countP_validateServiceURLsWith, List.Perm.countP_eq _ hord]
  have hcong : (finalState m).serviceURLs.countP (fun e => decide (e.2.length > 1) && (e.1 == u)) =
      (finalState m).serviceURLs.countP (fun e => e.1 == u) := by
    refine List.countP_congr ?_
    intro e he
    constructor
    · intro hb
      exact (Bool.and_eq_true _ _ ▸ hb).2
    · intro hb
      have heq : e = (u, declPaths m.Environments u) :=
        huniqS e he (by simpa using hb)
      subst heq
      simp only [Bool.and_eq_true, decide_eq_true_eq]
      exact ⟨hlen, by simp⟩
  rw [hcong, hcountS]

/-- Witness for C3: two services declaring source URL `u` yield exactly one
duplicate-source error listing both paths. -/
theorem duplicate_source_reported_once_witness :
    VError.duplicateSource "u" ["environments.e.services.a", "environments.e.services.b"] ∈
        validateErrs mC3 (finalState mC3).serviceURLs ∧
      (validateErrs mC3 (finalState mC3).serviceURLs).countP (isDupSourceFor "u") = 1 := by
  have h := duplicate_source_reported_once mC3 "u" (by decide) (finalState mC3).serviceURLs
    (List.Perm.refl _) (by decide)
  refine ⟨?_, h.2.1⟩
  have hdp : declPaths mC3.Environments "u" =
      ["environments.e.services.a", "environments.e.services.b"] := by decide
  rw [← hdp]
  exact h.1

end Odo

namespace Odo

/-- **C2** counterexample: the deferred duplicate-source errors are
emitted by iterating the `serviceURLs` map, and Go does not specify a map
iteration order; on a manifest with two distinct duplicated URLs, two
admissible iteration orders (both permutations of the accumulated map)
produce different aggregated error values, so two runs need not return
identical values. -/
theorem validate_order_dependent :
    ([("u", ["environments.e.services.a", "environments.e.services.b"]),
      ("v", ["environments.e.services.c", "environments.e.services.d"])].Perm
        (finalState mC2).serviceURLs ∧
    [("v", ["environments.e.services.c", "environments.e.services.d"]),
      ("u", ["environments.e.services.a", "environments.e.services.b"])].Perm
        (finalState mC2).serviceURLs) ∧
    ValidateWith mC2
        [("u", ["environments.e.services.a", "environments.e.services.b"]),
         ("v", ["environments.e.services.c", "environments.e.services.d"])] ≠
      ValidateWith mC2
        [("v", ["environments.e.services.c", "environments.e.services.d"]),
         ("u", ["environments.e.services.a", "environments.e.services.b"])] := by
  decide

/-- **C2** (amended): two runs of `Validate` on the same unmodified
manifest agree up to the unspecified iteration order of the `serviceURLs`
map: the aggregated error lists are permutations of each other (the
walk-produced prefix is identical, only the deferred duplicate-source
block may be reordered), and the success verdict is the same. -/
theorem validate_idempotent_up_to_url_order (m : Manifest)
    (o1 o2 : List (String × List String))
    (h1 : o1.Perm (finalState m).serviceURLs) (h2 : o2.Perm (finalState m).serviceURLs) :
    (validateErrs m o1).Perm (validateErrs m o2) ∧
      (ValidateWith m o1 = none ↔ ValidateWith m o2 = none) := by
  have hperm : (validateServiceURLsWith o1).Perm (validateServiceURLsWith o2) :=
    List.Perm.filterMap _ (h1.trans h2.symm)
  have hfull : (validateErrs m o1).Perm (validateErrs m o2) :=
    List.Perm.append_left (finalState m).errs hperm
  refine ⟨hfull, ?_⟩
  unfold ValidateWith
  by_cases hA : validateErrs m o1 = []
  · have hB : validateErrs m o2 = [] := by
      rw [← List.length_eq_zero, ← hfull.length_eq, List.length_eq_zero]
      exact hA
    rw [if_pos hA, if_pos hB]
  · have hB : validateErrs m o2 ≠ [] := by
      intro hB
      exact hA (by rw [← List.length_eq_zero, hfull.length_eq, List.length_eq_zero]; exact hB)
    rw [if_neg hA, if_neg hB]
    simp

/-- Witness for C2's amended theorem: the canonical order and the swapped
order on the two-duplicate manifest yield permuted error lists and the
same verdict. -/
theorem validate_idempotent_up_to_url_order_witness :
    (validateErrs mC2 (finalState mC2).serviceURLs).Perm
        (validateErrs mC2
          [("v", ["environments.e.services.c", "environments.e.services.d"]),
           ("u", ["environments.e.services.a", "environments.e.services.b"])]) ∧
      (ValidateWith mC2 (finalState mC2).serviceURLs = none ↔
        ValidateWith mC2
          [("v", ["environments.e.services.c", "environments.e.services.d"]),
           ("u", ["environments.e.services.a", "environments.e.services.b"])] = none) :=
  validate_idempotent_up_to_url_order mC2 _ _ (List.Perm.refl _) (by decide)

end Odo
